import Mathlib

set_option maxRecDepth 100000

/-
Shallow embedding of the spam-detection core of `src/bot.py`.

Strings are embedded as `List Char`; timestamps as `Nat` (seconds).  Python
`str.lower()` is embedded by mapping `Char.toLower` over the characters,
which agrees with Python on ASCII and is the identity on the CJK characters
appearing in the configured keyword list (neither has case).

`difflib.SequenceMatcher(None, a, b).ratio()` (with `isjunk = None` and, for
the short strings involved here, no autojunk since autojunk only activates
when `len(b) >= 200`) equals `2 * M / (len a + len b)` where `M` is the total
size of the matching blocks produced by the Ratcliff/Obershelp recursion:
repeatedly take the longest common contiguous block — among maximal blocks
the one starting earliest in `a`, then earliest in `b` — and recurse on the
two remaining sides.  Two empty strings have ratio 1.0 by an explicit case
in `difflib._calculate_ratio`.  The comparison `ratio >= 0.65` is embedded
exactly as the rational comparison `13 * (len a + len b) <= 40 * M`; for the
string lengths reachable here the floating-point comparison performed by
Python agrees with the rational one, since `2M/T` is never within 1/(20*T)
of 13/20 without being equal to it.
-/

namespace Bot

/-- Configuration constant `MESSAGE_LIMIT = 5` from src/bot.py. -/
def MESSAGE_LIMIT : Nat := 5

/-- Configuration constant `TIME_WINDOW = 30` (seconds) from src/bot.py. -/
def TIME_WINDOW : Nat := 30

/-- Python `str.lower()` on the embedded string (ASCII case mapping). -/
def lowerStr (s : List Char) : List Char := s.map Char.toLower

/-- Length of the longest common run at the heads of both lists. -/
def commonRun : List Char → List Char → Nat
  | x :: xs, y :: ys => if x = y then commonRun xs ys + 1 else 0
  | _, _ => 0

/-- One step of the inner loop of `find_longest_match`: at candidate start
positions `(i, j)` the block length is the common run of the two suffixes;
the best triple is replaced only on a strictly longer block. -/
def innerStep (a b : List Char) (i : Nat) (best : Nat × Nat × Nat) (j : Nat) :
    Nat × Nat × Nat :=
  let k := commonRun (a.drop i) (b.drop j)
  if best.2.2 < k then (i, j, k) else best

/-- One step of the outer loop of `find_longest_match`: scan every start
position `j` in `b` for the fixed start position `i` in `a`. -/
def outerStep (a b : List Char) (best : Nat × Nat × Nat) (i : Nat) :
    Nat × Nat × Nat :=
  (List.range b.length).foldl (innerStep a b i) best

/-- `SequenceMatcher.find_longest_match` over the whole strings (no junk):
the longest matching block `(i, j, k)`, and among the maximal blocks the one
starting earliest in `a`, then earliest in `b`; `(0, 0, 0)` when there is no
nonempty common block.  Scanning start positions in lexicographic `(i, j)`
order with strict improvement realises exactly that tie-break, because every
position attaining the maximal run length is the start of a maximal block. -/
def bestPair (a b : List Char) : Nat × Nat × Nat :=
  (List.range a.length).foldl (outerStep a b) (0, 0, 0)

/-- Fuel-indexed total size of the Ratcliff/Obershelp matching blocks
(`get_matching_blocks`, junk-free): take the longest block, recurse left and
right of it.  Each recursive call strictly decreases the length of the first
string, so any fuel at least `a.length` computes the full recursion. -/
def matchTotalF : Nat → List Char → List Char → Nat
  | 0, _, _ => 0
  | fuel + 1, a, b =>
    let p := bestPair a b
    if p.2.2 = 0 then 0
    else
      matchTotalF fuel (a.take p.1) (b.take p.2.1) + p.2.2 +
        matchTotalF fuel (a.drop (p.1 + p.2.2)) (b.drop (p.2.1 + p.2.2))

/-- Total number of matched characters used by `SequenceMatcher.ratio`. -/
def matchTotal (a b : List Char) : Nat := matchTotalF a.length a b

/-- `SequenceMatcher(None, a, b).ratio() >= 0.65`, i.e.
`2 * M / (len a + len b) >= 13/20`, as an exact rational comparison
(both strings empty gives ratio 1.0, and indeed `13 * 0 <= 40 * 0`). -/
def ratioGe65 (a b : List Char) : Bool :=
  decide (13 * (a.length + b.length) ≤ 40 * matchTotal a b)

/-- `is_similar(text1, text2)` from src/bot.py line 83: lowercase both
inputs, compare the `SequenceMatcher` ratio against
`SIMILARITY_THRESHOLD = 0.65`. -/
def is_similar (t1 t2 : List Char) : Bool :=
  ratioGe65 (lowerStr t1) (lowerStr t2)

/-- Python substring containment `needle in hay` on embedded strings. -/
def substrList (needle hay : List Char) : Bool :=
  (List.range (hay.length + 1)).any fun i => needle.isPrefixOf (hay.drop i)

/-- The keyword list `SPAM_KEYWORDS` from src/bot.py lines 39-49, in source
order (a Python list, so iteration order is list order). -/
def SPAM_KEYWORDS : List (List Char) :=
  ["buy now".toList, "discount".toList, "limited offer".toList,
   "click here".toList, "make money".toList, "earn cash now".toList,
   "investment".toList, "free gift".toList,
   "提奔驰".toList, "开宝马".toList, "看竹叶".toList, "看我筑夜".toList,
   "煮叶进".toList, "下个月让你".toList, "两个月后直接".toList,
   "安排到位".toList, "稳定长久".toList, "安全无忧".toList,
   "多个社区多个机会".toList, "随意交流".toList,
   "靠普能干事的兄弟".toList, "说到做到".toList, "给你安排到位".toList,
   "不妨来看看".toList, "加微信".toList, "加V".toList, "加薇".toList,
   "加我".toList, "私聊".toList, "赚钱项目".toList, "高回报".toList,
   "稳赚不赔".toList, "兼职".toList, "内部渠道".toList, "特殊资源".toList,
   "独家代理".toList]

/-- The per-keyword condition of the comprehension in
`contains_spam_keywords` (src/bot.py line 88): the already-lowercased text
contains the keyword as a substring (the keyword itself is NOT lowercased
here), or `is_similar(text_lower, kw)` holds. -/
def matchesKeyword (textLower kw : List Char) : Bool :=
  substrList kw textLower || is_similar textLower kw

/-- `contains_spam_keywords(text)` from src/bot.py lines 86-89.  The Python
function returns the list of matching keywords when nonempty and the value
`False` otherwise; `none` embeds the `False` result and `some ms` the
nonempty list `ms`. -/
def contains_spam_keywords (text : List Char) : Option (List (List Char)) :=
  let textLower := lowerStr text
  let ms := SPAM_KEYWORDS.filter (matchesKeyword textLower)
  if ms.isEmpty then none else some ms

/-- The purge step of `is_high_frequency` (src/bot.py line 93): keep the
records whose age `now - t` is at most `TIME_WINDOW`.  Timestamps are `Nat`,
so a record from the future has age 0 and is kept, exactly as in Python
where a negative age is `<= TIME_WINDOW`. -/
def purge (window : List (Nat × List Char)) (now : Nat) :
    List (Nat × List Char) :=
  window.filter fun r => decide (now - r.1 ≤ TIME_WINDOW)

/-- The similar-count of `is_high_frequency` (src/bot.py line 94): the
number of stored records whose text is `is_similar` to the incoming text,
with the stored text as first argument. -/
def similarCount (window : List (Nat × List Char)) (text : List Char) : Nat :=
  (window.filter fun r => is_similar r.2 text).length

/-- `is_high_frequency(user_id, message_text)` from src/bot.py lines 91-96,
with the per-user window and the clock passed explicitly: purge old records,
count similar records, append the new record, and report whether the count
(computed before the append) reached `MESSAGE_LIMIT`.  Returns the updated
window together with the boolean verdict. -/
def is_high_frequency (window : List (Nat × List Char)) (now : Nat)
    (text : List Char) : List (Nat × List Char) × Bool :=
  let w := purge window now
  (w ++ [(now, text)], decide (MESSAGE_LIMIT ≤ similarCount w text))

/-- `is_night_time()` from src/bot.py lines 98-101, with the local
wall-clock hour (in the Asia/Shanghai timezone) passed explicitly:
`hour >= 23 or hour < 7`. -/
def is_night_time (hour : Nat) : Bool :=
  decide (23 ≤ hour) || decide (hour < 7)

/-- The moderation verdict produced by `handle_message`: quiet-hours
deletion with no penalty, no action, or delete-plus-penalty. -/
inductive Verdict
  | allow
  | suppressSilent
  | suppressPenalize
deriving DecidableEq, Repr

/-- The decision logic of `handle_message` (src/bot.py lines 105-145) as a
pure function of the night-mode flag, the local hour, the message text, the
sender's window and the clock; platform I/O (the actual deletion, mute, ban
and warning calls, and their possible network failures) is outside the
model.  The empty text embeds the `not message.text and not message.caption`
early return.  Note the Python `or` on line 121: when
`contains_spam_keywords(text)` is truthy, `is_high_frequency` is never
called, so the window is left untouched. -/
def handle_message (nightMode : Bool) (hour : Nat) (text : List Char)
    (window : List (Nat × List Char)) (now : Nat) :
    Verdict × List (Nat × List Char) :=
  if nightMode && is_night_time hour then (.suppressSilent, window)
  else if text.isEmpty then (.allow, window)
  else
    match contains_spam_keywords text with
    | some _ => (.suppressPenalize, window)
    | none =>
      let r := is_high_frequency window now text
      if r.2 then (.suppressPenalize, r.1) else (.allow, r.1)

/-- Repeated calls of `is_high_frequency` for one sender who sends the same
text at the given times, starting from an empty window; returns the final
window and the boolean result of the last call. -/
def runBurst (text : List Char) (times : List Nat) :
    List (Nat × List Char) × Bool :=
  times.foldl (fun acc t => is_high_frequency acc.1 t text) ([], false)

/-- Modelled from the spec (section 4.2): the keyword matcher contract
`matchSpamKeywords(text, keywords)`, which returns every keyword of the
configured set that matches — normalized text contains the keyword as a
substring OR `similar(text, keyword)` — in keyword iteration order, with the
empty list meaning no match.  Used to compare the spec contract with the
source function `contains_spam_keywords`. -/
def matchSpamKeywords (text : List Char) : List (List Char) :=
  SPAM_KEYWORDS.filter fun kw =>
    substrList kw (lowerStr text) || is_similar text kw

end Bot

namespace Bot

theorem commonRun_le_left (a b : List Char) : commonRun a b ≤ a.length := by
  induction a generalizing b with
  | nil => simp [commonRun]
  | cons x xs ih =>
    cases b with
    | nil => simp [commonRun]
    | cons y ys =>
      simp only [commonRun, List.length_cons]
      split
      · exact Nat.succ_le_succ (ih ys)
      · exact Nat.zero_le _

theorem commonRun_self (l : List Char) : commonRun l l = l.length := by
  induction l with
  | nil => rfl
  | cons x xs ih => simp [commonRun, ih]

theorem innerFold_const (a b : List Char) (i : Nat) (best : Nat × Nat × Nat)
    (js : List Nat)
    (h : ∀ j, commonRun (a.drop i) (b.drop j) ≤ best.2.2) :
    js.foldl (innerStep a b i) best = best := by
  induction js with
  | nil => rfl
  | cons j js ih =>
    have h1 : innerStep a b i best j = best := by
      simp only [innerStep]
      rw [if_neg (Nat.not_lt.mpr (h j))]
    rw [List.foldl_cons, h1, ih]

theorem outerFold_const (a b : List Char) (best : Nat × Nat × Nat)
    (l : List Nat)
    (h : ∀ i j, commonRun (a.drop i) (b.drop j) ≤ best.2.2) :
    l.foldl (outerStep a b) best = best := by
  induction l with
  | nil => rfl
  | cons i l ih =>
    have h1 : outerStep a b best i = best :=
      innerFold_const a b i best (List.range b.length) (h i)
    rw [List.foldl_cons, h1, ih]

/-- On two copies of a nonempty string the longest matching block is the
whole string at position `(0, 0)`. -/
theorem bestPair_self (x : Char) (xs : List Char) :
    bestPair (x :: xs) (x :: xs) = (0, 0, xs.length + 1) := by
  set l : List Char := x :: xs with hl
  have hlen : l.length = xs.length + 1 := by simp [hl]
  have hbound : ∀ i j : Nat,
      commonRun (l.drop i) (l.drop j) ≤ xs.length + 1 := by
    intro i j
    calc commonRun (l.drop i) (l.drop j) ≤ (l.drop i).length :=
          commonRun_le_left _ _
      _ ≤ l.length := by simp [List.length_drop]
      _ = xs.length + 1 := hlen
  have hfirst : innerStep l l 0 (0, 0, 0) 0 = (0, 0, xs.length + 1) := by
    simp only [innerStep, List.drop_zero, commonRun_self, hlen]
    rw [if_pos (Nat.succ_pos _)]
  have houter0 : outerStep l l (0, 0, 0) 0 = (0, 0, xs.length + 1) := by
    unfold outerStep
    rw [hlen, List.range_succ_eq_map, List.foldl_cons, hfirst]
    exact innerFold_const l l 0 _ _ (fun j => hbound 0 j)
  unfold bestPair
  rw [hlen, List.range_succ_eq_map, List.foldl_cons, houter0]
  exact outerFold_const l l _ _ (fun i j => hbound i j)

theorem matchTotalF_nil (fuel : Nat) : matchTotalF fuel [] [] = 0 := by
  cases fuel <;> rfl

/-- The total matched size of a string against itself is its length. -/
theorem matchTotal_self (l : List Char) : matchTotal l l = l.length := by
  cases l with
  | nil => rfl
  | cons x xs =>
    show matchTotalF (x :: xs).length (x :: xs) (x :: xs) = (x :: xs).length
    simp only [List.length_cons]
    rw [matchTotalF, bestPair_self]
    simp only [List.take_zero, Nat.zero_add]
    rw [if_neg (Nat.succ_ne_zero _)]
    have hdrop : (x :: xs).drop (xs.length + 1) = [] :=
      List.drop_of_length_le (by simp)
    rw [hdrop, matchTotalF_nil]
    omega

/-- `is_similar` holds on two copies of any string: the matched total is the
full length, so the ratio is 1.0. -/
theorem is_similar_self (t : List Char) : is_similar t t = true := by
  simp only [is_similar, ratioGe65, matchTotal_self, decide_eq_true_eq]
  omega

theorem toLower_def (c : Char) :
    Char.toLower c =
      if 65 ≤ c.toNat ∧ c.toNat ≤ 90 then Char.ofNat (c.toNat + 32) else c :=
  rfl

theorem toNat_ofNat_shifted (n : Nat) (h1 : 65 ≤ n) (h2 : n ≤ 90) :
    (Char.ofNat (n + 32)).toNat = n + 32 := by
  interval_cases n <;> decide

theorem toNat_toLower (c : Char) :
    (Char.toLower c).toNat =
      if 65 ≤ c.toNat ∧ c.toNat ≤ 90 then c.toNat + 32 else c.toNat := by
  rw [toLower_def]
  by_cases h : 65 ≤ c.toNat ∧ c.toNat ≤ 90
  · rw [if_pos h, if_pos h]
    exact toNat_ofNat_shifted _ h.1 h.2
  · rw [if_neg h, if_neg h]

/-- `Char.toLower` never produces an ASCII uppercase letter. -/
theorem toLower_not_upper (c : Char) :
    ¬(65 ≤ (Char.toLower c).toNat ∧ (Char.toLower c).toNat ≤ 90) := by
  rw [toNat_toLower]
  split <;> omega

theorem toLower_eq_self (c : Char)
    (h : ¬(65 ≤ c.toNat ∧ c.toNat ≤ 90)) : Char.toLower c = c := by
  rw [toLower_def, if_neg h]

theorem toLower_toLower (c : Char) :
    Char.toLower (Char.toLower c) = Char.toLower c :=
  toLower_eq_self _ (toLower_not_upper c)

theorem lowerStr_idem (s : List Char) : lowerStr (lowerStr s) = lowerStr s := by
  unfold lowerStr
  rw [List.map_map]
  exact List.map_congr_left fun a _ => toLower_toLower a

/-- Lowercasing the first argument of `is_similar` is redundant, since
`is_similar` lowercases both arguments itself. -/
theorem is_similar_lower_left (t kw : List Char) :
    is_similar (lowerStr t) kw = is_similar t kw := by
  simp only [is_similar, lowerStr_idem]

/-- The filter used by the source function agrees pointwise with the
keyword-match condition worded by the spec. -/
theorem matchSpamKeywords_eq (text : List Char) :
    SPAM_KEYWORDS.filter (matchesKeyword (lowerStr text)) =
      matchSpamKeywords text := by
  unfold matchSpamKeywords
  apply List.filter_congr
  intro kw _
  simp [matchesKeyword, is_similar_lower_left]

/-- A keyword containing an ASCII uppercase letter is never a substring of a
lowercased text. -/
theorem substr_upper_false (kw text : List Char) (c : Char) (hc : c ∈ kw)
    (h1 : 65 ≤ c.toNat) (h2 : c.toNat ≤ 90) :
    substrList kw (lowerStr text) = false := by
  simp only [substrList, List.any_eq_false]
  intro i _
  cases hpre : kw.isPrefixOf ((lowerStr text).drop i) with
  | false => simp
  | true =>
    exfalso
    have hsub : kw <+: (lowerStr text).drop i :=
      List.isPrefixOf_iff_prefix.mp hpre
    have hmem : c ∈ lowerStr text :=
      (List.drop_sublist i (lowerStr text)).subset (hsub.sublist.subset hc)
    simp only [lowerStr, List.mem_map] at hmem
    obtain ⟨d, _, hd⟩ := hmem
    exact toLower_not_upper d (by rw [hd]; exact ⟨h1, h2⟩)

theorem purge_of_all (window : List (Nat × List Char)) (now : Nat)
    (h : ∀ r ∈ window, now - r.1 ≤ TIME_WINDOW) : purge window now = window := by
  unfold purge
  apply List.filter_eq_self.mpr
  intro r hr
  exact decide_eq_true (h r hr)

theorem similarCount_all_same (times : List Nat) (text : List Char) :
    similarCount (times.map fun t => (t, text)) text = times.length := by
  unfold similarCount
  rw [List.filter_eq_self.mpr, List.length_map]
  intro r hr
  obtain ⟨t, _, rfl⟩ := List.mem_map.mp hr
  exact is_similar_self text

/-- One `is_high_frequency` call on a window of identical texts, none older
than the window: nothing is purged, every stored record counts as similar,
and the new record is appended. -/
theorem hf_step (done : List Nat) (t : Nat) (text : List Char)
    (h : ∀ x ∈ done, t - x ≤ TIME_WINDOW) :
    is_high_frequency (done.map fun u => (u, text)) t text =
      ((done ++ [t]).map fun u => (u, text),
        decide (MESSAGE_LIMIT ≤ done.length)) := by
  have hp : purge (done.map fun u => (u, text)) t = done.map fun u => (u, text) := by
    apply purge_of_all
    intro r hr
    obtain ⟨u, hu, rfl⟩ := List.mem_map.mp hr
    exact h u hu
  simp only [is_high_frequency, hp, similarCount_all_same]
  simp

/-- Running a burst of identical texts whose times all lie within
`TIME_WINDOW` of one another: the window accumulates every record, and the
last call reports whether the number of prior records reached
`MESSAGE_LIMIT`. -/
theorem runBurst_aux (text : List Char) :
    ∀ (rest : List Nat) (t : Nat) (done : List Nat) (b : Bool),
      (∀ x ∈ done ++ t :: rest, ∀ y ∈ done ++ t :: rest, x - y ≤ TIME_WINDOW) →
      List.foldl (fun acc u => is_high_frequency acc.1 u text)
          (done.map fun u => (u, text), b) (t :: rest) =
        ((done ++ t :: rest).map fun u => (u, text),
          decide (MESSAGE_LIMIT ≤ done.length + rest.length)) := by
  intro rest
  induction rest with
  | nil =>
    intro t done b hspan
    rw [List.foldl_cons]
    have hstep := hf_step done t text
      (fun x hx => hspan t (by simp) x (by simp [hx]))
    simp only [hstep, List.foldl_nil]
    simp
  | cons t2 rest ih =>
    intro t done b hspan
    rw [List.foldl_cons]
    have hstep := hf_step done t text
      (fun x hx => hspan t (by simp) x (by simp [hx]))
    simp only [hstep]
    have hspan2 : ∀ x ∈ (done ++ [t]) ++ t2 :: rest,
        ∀ y ∈ (done ++ [t]) ++ t2 :: rest, x - y ≤ TIME_WINDOW := by
      intro x hx y hy
      rw [List.append_assoc] at hx hy
      exact hspan x (by simpa using hx) y (by simpa using hy)
    have := ih t2 (done ++ [t]) (decide (MESSAGE_LIMIT ≤ done.length)) hspan2
    rw [this, List.append_assoc]
    have hlen : (done ++ [t]).length + rest.length =
        done.length + (t2 :: rest).length := by
      simp
      omega
    rw [hlen]
    rfl

/-- Claim C1, counterexample: for a sender sending the identical text "x"
five times at times 0,0,0,0,0 (all within TIME_WINDOW), the 5th call to
`is_high_frequency` returns false, not true as the claim states: the call
counts only the 4 previously stored records and 4 < MESSAGE_LIMIT. -/
theorem fifth_call_not_high_frequency :
    (runBurst "x".toList [0, 0, 0, 0, 0]).2 = false := by decide

/-- Claim C1 (amended): for a sender who sends the identical text at
nondecreasing times all within TIME_WINDOW seconds (and no other messages),
the 4th and 5th calls to `is_high_frequency` return false and the 6th
returns true: the k-th call counts only the k-1 previously stored records,
so the count first reaches MESSAGE_LIMIT = 5 at the 6th call. -/
theorem burst_limit_boundary (text : List Char) (t1 t2 t3 t4 t5 t6 : Nat)
    (h12 : t1 ≤ t2) (h23 : t2 ≤ t3) (h34 : t3 ≤ t4) (h45 : t4 ≤ t5)
    (h56 : t5 ≤ t6) (hspan : t6 - t1 ≤ TIME_WINDOW) :
    (runBurst text [t1, t2, t3, t4]).2 = false ∧
    (runBurst text [t1, t2, t3, t4, t5]).2 = false ∧
    (runBurst text [t1, t2, t3, t4, t5, t6]).2 = true := by
  have hw : TIME_WINDOW = 30 := rfl
  refine ⟨?_, ?_, ?_⟩
  · have aux := runBurst_aux text [t2, t3, t4] t1 [] false
      (by intro x hx y hy; simp at hx hy; rw [hw] at hspan ⊢; omega)
    simp only [List.map_nil] at aux
    unfold runBurst
    rw [aux]
    rfl
  · have aux := runBurst_aux text [t2, t3, t4, t5] t1 [] false
      (by intro x hx y hy; simp at hx hy; rw [hw] at hspan ⊢; omega)
    simp only [List.map_nil] at aux
    unfold runBurst
    rw [aux]
    rfl
  · have aux := runBurst_aux text [t2, t3, t4, t5, t6] t1 [] false
      (by intro x hx y hy; simp at hx hy; rw [hw] at hspan ⊢; omega)
    simp only [List.map_nil] at aux
    unfold runBurst
    rw [aux]
    rfl

/-- Witness for `burst_limit_boundary` at text "x" and times 0..5. -/
theorem burst_limit_boundary_witness :
    (runBurst "x".toList [0, 1, 2, 3]).2 = false ∧
    (runBurst "x".toList [0, 1, 2, 3, 4]).2 = false ∧
    (runBurst "x".toList [0, 1, 2, 3, 4, 5]).2 = true :=
  burst_limit_boundary "x".toList 0 1 2 3 4 5 (by decide) (by decide)
    (by decide) (by decide) (by decide) (by decide)

/-- Claim C2, counterexample: outside quiet hours, for the non-empty text
"buy now" (which matches a spam keyword) and an empty window, the window
after `handle_message` is NOT the purged window with (now, text) appended:
the Python `or` short-circuits and `is_high_frequency` never runs. -/
theorem keyword_match_skips_append :
    (handle_message false 12 "buy now".toList [] 0).2 ≠
      purge [] 0 ++ [(0, "buy now".toList)] := by decide

/-- Claim C2 (amended): for every message with non-empty text evaluated
outside quiet hours, the record (now, text) is appended to the sender's
window (after the purge) exactly when the message matches no spam keyword,
regardless of the frequency verdict; when a keyword matches, the
short-circuited `or` skips `is_high_frequency` and the window is unchanged. -/
theorem handle_message_window_update (nightMode : Bool) (hour : Nat)
    (text : List Char) (window : List (Nat × List Char)) (now : Nat)
    (hq : (nightMode && is_night_time hour) = false) (ht : text ≠ []) :
    (handle_message nightMode hour text window now).2 =
      match contains_spam_keywords text with
      | some _ => window
      | none => purge window now ++ [(now, text)] := by
  have hte : text.isEmpty = false := by
    cases text
    · exact absurd rfl ht
    · rfl
  unfold handle_message
  simp only [hq, hte, Bool.false_eq_true, if_false]
  cases hc : contains_spam_keywords text with
  | some l => simp only [hc]
  | none =>
    simp only [hc]
    cases hb : (is_high_frequency window now text).2 <;>
      simp only [hb, if_true, if_false, Bool.false_eq_true] <;>
      simp [is_high_frequency]

/-- Witness for `handle_message_window_update`: night mode off, hour 12,
text "hello" (no keyword match), window [(0, "a")], now 3. -/
theorem handle_message_window_update_witness :
    (handle_message false 12 "hello".toList [(0, ['a'])] 3).2 =
      match contains_spam_keywords "hello".toList with
      | some _ => [(0, ['a'])]
      | none => purge [(0, ['a'])] 3 ++ [(3, "hello".toList)] :=
  handle_message_window_update false 12 "hello".toList [(0, ['a'])] 3
    (by decide) (by decide)

/-- Claim C3, counterexample: for the text "hello" no keyword matches and
`contains_spam_keywords` returns the embedded Python value `False`
(embedded as `none`), which is not the empty list. -/
theorem no_match_returns_false_value :
    contains_spam_keywords "hello".toList = none ∧
    (none : Option (List (List Char))) ≠ some [] :=
  ⟨by decide, by decide⟩

/-- Claim C3 (amended): for every text, `contains_spam_keywords` returns
exactly the keywords matching the spec condition (substring of the
normalized text OR fuzzy-similar), every matching keyword in keyword-list
iteration order — but it returns the Python value `False` (embedded `none`),
not the empty list, when no keyword matches. -/
theorem contains_spam_keywords_spec (text : List Char) :
    contains_spam_keywords text =
      (if (matchSpamKeywords text).isEmpty then none
        else some (matchSpamKeywords text)) ∧
    (matchSpamKeywords text).Sublist SPAM_KEYWORDS ∧
    ∀ kw, kw ∈ matchSpamKeywords text ↔
      kw ∈ SPAM_KEYWORDS ∧
        (substrList kw (lowerStr text) = true ∨ is_similar text kw = true) := by
  refine ⟨?_, List.filter_sublist _, ?_⟩
  · unfold contains_spam_keywords
    dsimp only
    rw [matchSpamKeywords_eq]
  · intro kw
    unfold matchSpamKeywords
    simp [List.mem_filter]

/-- Claim C4, counterexample: `is_similar` is not symmetric —
`is_similar("wwwezcdab", "wwwabecd")` is true (matched total 6, ratio
12/17 ≥ 0.65) while `is_similar("wwwabecd", "wwwezcdab")` is false (matched
total 5, ratio 10/17 < 0.65); SequenceMatcher's greedy block choice depends
on argument order. -/
theorem is_similar_asymmetric_pair :
    is_similar "wwwezcdab".toList "wwwabecd".toList = true ∧
    is_similar "wwwabecd".toList "wwwezcdab".toList = false :=
  ⟨by decide, by decide⟩

/-- Claim C4 (amended): `similar(a, b)` equals `similar(b, a)` whenever the
Ratcliff/Obershelp matched-character totals of the two argument orders
coincide (the threshold denominator is symmetric); in general the total
depends on argument order and symmetry fails. -/
theorem is_similar_symm_of_equal_totals (a b : List Char)
    (h : matchTotal (lowerStr a) (lowerStr b) =
      matchTotal (lowerStr b) (lowerStr a)) :
    is_similar a b = is_similar b a := by
  unfold is_similar ratioGe65
  rw [h, Nat.add_comm]

/-- Witness for `is_similar_symm_of_equal_totals` at "ab", "ba". -/
theorem is_similar_symm_of_equal_totals_witness :
    is_similar "ab".toList "ba".toList = is_similar "ba".toList "ab".toList :=
  is_similar_symm_of_equal_totals "ab".toList "ba".toList (by decide)

/-- Claim C5: whenever night mode is enabled and the local hour is in quiet
hours, `handle_message` yields SuppressSilent for every text (including the
empty text), leaving the sender's window untouched — keyword matching and
frequency tracking are short-circuited. -/
theorem quiet_hours_suppress_silent (hour : Nat)
    (h : is_night_time hour = true) (text : List Char)
    (window : List (Nat × List Char)) (now : Nat) :
    handle_message true hour text window now = (.suppressSilent, window) := by
  unfold handle_message
  simp [h]

/-- Witness for `quiet_hours_suppress_silent` at hour 23 (23:30 local falls
in this hour) and the non-spam text "hello". -/
theorem quiet_hours_suppress_silent_witness :
    handle_message true 23 "hello".toList [] 0 = (.suppressSilent, []) :=
  quiet_hours_suppress_silent 23 (by decide) "hello".toList [] 0

/-- Claim C6: a prior record strictly older than TIME_WINDOW is excluded
from the duplicate count: with a single stored copy of the text from more
than TIME_WINDOW seconds ago, the similar-count is 0 and the call returns
false, the old record being purged. -/
theorem old_record_excluded (text : List Char) (t0 now : Nat)
    (h : TIME_WINDOW < now - t0) :
    similarCount (purge [(t0, text)] now) text = 0 ∧
    is_high_frequency [(t0, text)] now text = ([(now, text)], false) := by
  have hp : purge [(t0, text)] now = [] := by
    unfold purge
    simp only [List.filter_cons, List.filter_nil]
    rw [if_neg]
    simp only [decide_eq_true_eq]
    omega
  refine ⟨by rw [hp]; rfl, ?_⟩
  simp only [is_high_frequency, hp]
  rfl

/-- Witness for `old_record_excluded`: text "a" sent at t = 0 and evaluated
again at t = 31 with TIME_WINDOW = 30. -/
theorem old_record_excluded_witness :
    similarCount (purge [(0, ['a'])] 31) ['a'] = 0 ∧
    is_high_frequency [(0, ['a'])] 31 ['a'] = ([(31, ['a'])], false) :=
  old_record_excluded ['a'] 0 31 (by decide)

/-- Claim C7: after a call to `is_high_frequency`, every record in the
returned window (the appended one included) satisfies
now - timestamp ≤ TIME_WINDOW, and — provided every stored timestamp is at
most the current clock value, as a non-decreasing clock guarantees — the
window stays ordered by timestamp ascending. -/
theorem window_invariant (window : List (Nat × List Char)) (now : Nat)
    (text : List Char) (hclock : ∀ r ∈ window, r.1 ≤ now)
    (hsorted : window.Pairwise fun a b => a.1 ≤ b.1) :
    (∀ r ∈ (is_high_frequency window now text).1, now - r.1 ≤ TIME_WINDOW) ∧
    (is_high_frequency window now text).1.Pairwise fun a b => a.1 ≤ b.1 := by
  have h1 : (is_high_frequency window now text).1 =
      purge window now ++ [(now, text)] := rfl
  rw [h1]
  constructor
  · intro r hr
    rcases List.mem_append.mp hr with hr | hr
    · unfold purge at hr
      have hp := List.of_mem_filter hr
      simp only [decide_eq_true_eq] at hp
      exact hp
    · have : r = (now, text) := by simpa using hr
      rw [this]
      simp
  · apply List.pairwise_append.mpr
    refine ⟨hsorted.sublist (List.filter_sublist _),
      List.pairwise_singleton _ _, ?_⟩
    intro a ha b hb
    have hb2 : b = (now, text) := by simpa using hb
    rw [hb2]
    unfold purge at ha
    exact hclock a (List.mem_of_mem_filter ha)

/-- Witness for `window_invariant`: window [(0, "a")], now 5, text "b". -/
theorem window_invariant_witness :
    (∀ r ∈ (is_high_frequency [(0, ['a'])] 5 ['b']).1, 5 - r.1 ≤ TIME_WINDOW) ∧
    (is_high_frequency [(0, ['a'])] 5 ['b']).1.Pairwise fun a b => a.1 ≤ b.1 :=
  window_invariant [(0, ['a'])] 5 ['b'] (by decide) (by decide)

/-- Claim C8: `is_similar(a, a)` is true for every string a, the empty
string included: the matched total equals the full length, so the
underlying ratio is 1.0 (for two empty strings by the explicit convention
in `difflib._calculate_ratio`). -/
theorem similar_identical (a : List Char) :
    is_similar a a = true ∧ matchTotal (lowerStr a) (lowerStr a) = a.length :=
  ⟨is_similar_self a, by rw [matchTotal_self]; simp [lowerStr]⟩

/-- Claim C9: `is_night_time` holds exactly on local hours h with h ≥ 23 or
h < 7; over a full day these are 23:00-23:59 and 00:00-06:59, the default
window wrapping past midnight. -/
theorem is_night_time_spec :
    (∀ hour : Nat, is_night_time hour = true ↔ (23 ≤ hour ∨ hour < 7)) ∧
    (List.range 24).filter is_night_time = [0, 1, 2, 3, 4, 5, 6, 23] :=
  ⟨fun hour => by simp [is_night_time], by decide⟩

/-- Claim C10: a keyword containing an ASCII uppercase letter (such as the
configured keyword 加V) is never matched by the substring branch of
`contains_spam_keywords` — the text is lowercased but the keyword is not —
so such a keyword can match only through the `is_similar` branch, which
lowercases both sides. -/
theorem uppercase_keyword_substring_never_matches (kw text : List Char)
    (c : Char) (hc : c ∈ kw) (h1 : 65 ≤ c.toNat) (h2 : c.toNat ≤ 90) :
    substrList kw (lowerStr text) = false ∧
    matchesKeyword (lowerStr text) kw = is_similar (lowerStr text) kw := by
  have hs := substr_upper_false kw text c hc h1 h2
  exact ⟨hs, by simp [matchesKeyword, hs]⟩

/-- Witness for `uppercase_keyword_substring_never_matches` at the
configured keyword 加V (uppercase V, code point 86) and the text 加v. -/
theorem uppercase_keyword_substring_never_matches_witness :
    substrList "加V".toList (lowerStr "加v".toList) = false ∧
    matchesKeyword (lowerStr "加v".toList) "加V".toList =
      is_similar (lowerStr "加v".toList) "加V".toList :=
  uppercase_keyword_substring_never_matches "加V".toList "加v".toList 'V'
    (by decide) (by decide) (by decide)

end Bot
